import Mathlib

/-!
Shallow embedding of `src/byesil-pa5-2/driver/scull.c`, a bounded FIFO
message queue implemented as a Linux character device.

The module-level state of the driver consists of:
  * two counting semaphores, `writer` (free slots, initialized to
    `scull_fifo_size`) and `reader` (filled slots, initialized to 0);
  * a mutex `scull_mutex` serializing the critical sections;
  * a flat byte region `scull_message_queue` of
    `scull_fifo_size * (sizeof(ssize_t) + scull_fifo_elemsz)` bytes,
    logically divided into `scull_fifo_size` slots, each holding an
    8-byte `ssize_t` length header followed by `scull_fifo_elemsz`
    payload bytes;
  * two cursors `head` and `end`, kept as pointers into the region and
    modelled here as byte offsets from `scull_message_queue`.

Machine integers: `size_t` values are modelled as `Nat`, `ssize_t`
values as `Int` with explicit reduction modulo `2^64` at the points
where the C code converts between the two.  `sizeof(ssize_t)` and
`sizeof(size_t)` are both 8 on the target platform.

Interruption of the blocking primitives (`down_interruptible`,
`mutex_lock_interruptible`) and failure of the user-space transfer
primitives (`copy_to_user`, `copy_from_user`) are external events; each
call of `scull_read` / `scull_write` therefore takes three Booleans
saying whether the corresponding primitive reports interruption or
failure during this call.  A `down_interruptible` on a semaphore whose
count is zero that is neither interrupted nor ever signalled cannot
return; this is the `blocked` outcome.

Each operation reads the cursor globals twice: once at function entry
(before any acquire), to compute `dataPtr`/`dataSize` (read) or
`dataPtr`/`sizePtr` (write), and once inside the critical section, for
the cursor advance.  To keep that program order visible, the model of
each operation takes two states: `sEntry`, the shared state at function
entry when the snapshot lines run, and `s`, the shared state when the
blocking acquires are reached.  A caller that runs the operation with
no concurrent interference passes the same state twice.
-/

/-- Module load-time parameters: `scull_fifo_size` (N, the number of
slots, default 10) and `scull_fifo_elemsz` (ELEMSZ, the payload bytes
per slot, default 4000). Both are positive `int` values. -/
structure Cfg where
  size : Nat
  elemsz : Nat
deriving DecidableEq

/-- Well-formedness of the load-time parameters: both are positive C
`int` values, so the slot count is nonzero and the element size fits a
signed 64-bit integer. -/
def CfgWF (c : Cfg) : Prop := 0 < c.size ∧ c.elemsz < 2 ^ 63

instance (c : Cfg) : Decidable (CfgWF c) := by unfold CfgWF; infer_instance

/-- Byte distance between consecutive slots:
`sizeof(ssize_t) + scull_fifo_elemsz`. -/
def stride (c : Cfg) : Nat := 8 + c.elemsz

/-- Size in bytes of the kmalloc'ed region:
`scull_fifo_size * (scull_fifo_elemsz + sizeof(size_t)) * sizeof(char)`. -/
def fifoRegionBytes (c : Cfg) : Nat := c.size * (c.elemsz + 8)

/-- One slot of the ring: the `ssize_t` length header at the start of
the slot, and the payload bytes following it (indexed from 0, values of
the byte region). -/
structure Slot where
  len : Int
  payload : Nat → Nat

/-- The module-level shared state: the two semaphore counters, the two
cursors as byte offsets from `scull_message_queue`, and the slot
contents of the region. -/
structure ScullState where
  writerSem : Nat
  readerSem : Nat
  headOff : Nat
  endOff : Nat
  slots : Nat → Slot

/-- Error number `EFAULT` (bad address). -/
def EFAULT : Int := 14

/-- Error number `ERESTARTSYS` (interrupted system call, restartable). -/
def ERESTARTSYS : Int := 512

/-- Error number `ENOTTY` (inappropriate ioctl for device). -/
def ENOTTY : Int := 25

/-- Error number `ENOMEM` (out of memory). -/
def ENOMEM : Int := 12

/-- Conversion of a mathematical integer to `size_t`: reduction modulo
`2^64`. Used where the C code converts an `ssize_t` value to `size_t`
(e.g. in the `count > dataSize` comparison, and in `count = -EFAULT`). -/
def toSizeT (i : Int) : Nat := (i % 2 ^ 64).toNat

/-- Conversion of a `size_t` value to `ssize_t`: two's-complement
reinterpretation of the low 64 bits. Used where the C code returns a
`size_t` local from a function whose return type is `ssize_t`. -/
def toSSizeT (n : Nat) : Int :=
  if n % 2 ^ 64 < 2 ^ 63 then ((n % 2 ^ 64 : Nat) : Int)
  else ((n % 2 ^ 64 : Nat) : Int) - 2 ^ 64

/-- Outcome of one `scull_read` / `scull_write` call: either the call
returns (with the `ssize_t` return value, the bytes transferred to the
user buffer — empty for writes and for error returns — and the shared
state after the call), or it blocks forever inside an uninterrupted
`down_interruptible` on a zero semaphore. -/
inductive RWOut where
  | ret (r : Int) (out : List Nat) (s : ScullState)
  | blocked

/-- The `ssize_t` return value of a completed call. -/
def RWOut.retVal : RWOut → Option Int
  | .ret r _ _ => some r
  | .blocked => none

/-- The bytes a completed read delivered to the user buffer. -/
def RWOut.outBytes : RWOut → Option (List Nat)
  | .ret _ out _ => some out
  | .blocked => none

/-- The shared state after a completed call. -/
def RWOut.next : RWOut → Option ScullState
  | .ret _ _ s => some s
  | .blocked => none

/-- Embedding of `scull_read` (scull.c lines 78–113).

Program order of the source:
1. `dataPtr = head + sizeof(ssize_t); dataSize = *(ssize_t *)head;` —
   executed at entry, before any acquire, hence evaluated on `sEntry`;
2. `down_interruptible(&reader)`; if it reports interruption the code
   runs `up(&writer)` and returns `-ERESTARTSYS`;
3. `mutex_lock_interruptible(&scull_mutex)`; if it reports interruption
   the code runs `up(&writer)` and returns `-ERESTARTSYS` (the reader
   permit taken in step 2 stays consumed);
4. `count = (count > dataSize) ? dataSize : count;` — the comparison is
   between `size_t` and `ssize_t`, so `dataSize` is converted to
   `size_t`;
5. `copy_to_user(buf, dataPtr, count)`; on failure the code runs
   `up(&writer)`, unlocks, and returns `-EFAULT`;
6. on success `head` advances by one stride, reduced modulo the region
   size, then the mutex is unlocked, `up(&writer)` runs, and the clamped
   `count` is returned. -/
def scull_read (c : Cfg) (sEntry s : ScullState) (count : Nat)
    (intrDown intrLock copyFail : Bool) : RWOut :=
  let snapSlot := sEntry.headOff / stride c
  let dataSize := (sEntry.slots snapSlot).len
  if intrDown then
    .ret (-ERESTARTSYS) [] { s with writerSem := s.writerSem + 1 }
  else if s.readerSem = 0 then
    .blocked
  else
    let s1 : ScullState := { s with readerSem := s.readerSem - 1 }
    if intrLock then
      .ret (-ERESTARTSYS) [] { s1 with writerSem := s1.writerSem + 1 }
    else
      let cnt := if count > toSizeT dataSize then toSizeT dataSize else count
      if copyFail then
        .ret (-EFAULT) [] { s1 with writerSem := s1.writerSem + 1 }
      else
        let out := (List.range cnt).map (s1.slots snapSlot).payload
        .ret (toSSizeT cnt) out
          { s1 with
            headOff := (s1.headOff + stride c) % (c.size * stride c),
            writerSem := s1.writerSem + 1 }

/-- Embedding of `scull_write` (scull.c lines 115–151).

Program order of the source:
1. `dataPtr = end + sizeof(ssize_t); sizePtr = (ssize_t *)end;` —
   executed at entry, before any acquire, hence evaluated on `sEntry`;
2. `down_interruptible(&writer)`; if it reports interruption the code
   returns `-ERESTARTSYS` with no state change;
3. `mutex_lock_interruptible(&scull_mutex)`; if it reports interruption
   the code runs `up(&reader)` and returns `-ERESTARTSYS` (the writer
   permit taken in step 2 stays consumed);
4. `count = (count > scull_fifo_elemsz) ? scull_fifo_elemsz : count;`
5. `copy_from_user(dataPtr, buf, count)`; on success the slot's length
   header is set to `count`, and `end` advances by one stride modulo
   the region size; on failure `count = -EFAULT` (a `size_t`
   assignment, so the value wraps modulo `2^64`);
6. in both branches the mutex is unlocked, `up(&reader)` runs, and
   `count` is returned through the `ssize_t` return type. -/
def scull_write (c : Cfg) (sEntry s : ScullState) (buf : Nat → Nat) (count : Nat)
    (intrDown intrLock copyFail : Bool) : RWOut :=
  let snapSlot := sEntry.endOff / stride c
  if intrDown then
    .ret (-ERESTARTSYS) [] s
  else if s.writerSem = 0 then
    .blocked
  else
    let s1 : ScullState := { s with writerSem := s.writerSem - 1 }
    if intrLock then
      .ret (-ERESTARTSYS) [] { s1 with readerSem := s1.readerSem + 1 }
    else
      let cnt := if count > c.elemsz then c.elemsz else count
      if copyFail then
        .ret (toSSizeT (toSizeT (-EFAULT))) [] { s1 with readerSem := s1.readerSem + 1 }
      else
        let oldSlot := s1.slots snapSlot
        let newSlot : Slot :=
          { len := (cnt : Int),
            payload := fun i => if i < cnt then buf i else oldSlot.payload i }
        .ret (toSSizeT cnt) []
          { s1 with
            slots := fun j => if j = snapSlot then newSlot else s1.slots j,
            endOff := (s1.endOff + stride c) % (c.size * stride c),
            readerSem := s1.readerSem + 1 }

/-- The shared state produced by the FIFO part of `scull_init_module`
(scull.c lines 247–259) when the allocation succeeds: `head` and `end`
point at the start of the region, `sema_init(&reader, 0)` and
`sema_init(&writer, scull_fifo_size)` set the counters.  The freshly
kmalloc'ed region has arbitrary contents, passed in as `initSlots`. -/
def initState (c : Cfg) (initSlots : Nat → Slot) : ScullState :=
  { writerSem := c.size
    readerSem := 0
    headOff := 0
    endOff := 0
    slots := initSlots }

/-- Embedding of the FIFO construction in `scull_init_module` (scull.c
lines 247–264): if `kmalloc` succeeds the queue state is initialized;
if it fails the function jumps to `fail`, which runs
`scull_cleanup_module` (freeing the region and unregistering the
device, so no queue state survives) and returns `-ENOMEM`. -/
def scull_init_fifo (c : Cfg) (allocOk : Bool) (initSlots : Nat → Slot) :
    Except Int ScullState :=
  if allocOk then .ok (initState c initSlots) else .error (-ENOMEM)

/-- `_IOC_NR(cmd)`: bits 0–7 of an ioctl command word. -/
def iocNr (cmd : Nat) : Nat := cmd % 256

/-- `_IOC_TYPE(cmd)`: bits 8–15 of an ioctl command word. -/
def iocType (cmd : Nat) : Nat := cmd / 256 % 256

/-- Modelled from the spec: the header `scull.h` is not part of the
sources, so the value of `SCULL_IOC_MAGIC` is not available; the
conventional choice for this driver family is the character `k`
(ASCII 107). Only the facts that it is a fixed 8-bit type code and
that `SCULL_IOCGETELEMSZ` carries it matter to the claims. -/
def SCULL_IOC_MAGIC : Nat := 107

/-- Modelled from the spec: `scull.h` is missing; the driver exposes a
single control command, so the highest command number is 1. -/
def SCULL_IOC_MAXNR : Nat := 1

/-- Modelled from the spec: `scull.h` is missing; `SCULL_IOCGETELEMSZ`
is the passive query command returning `scull_fifo_elemsz`, encoded
with type `SCULL_IOC_MAGIC` and command number 1. -/
def SCULL_IOCGETELEMSZ : Nat := SCULL_IOC_MAGIC * 256 + 1

/-- Embedding of `scull_ioctl` (scull.c lines 158–183).  The function
reads only `scull_fifo_elemsz` and the command word; it never touches
the semaphores, the cursors or the region, so it is modelled as a pure
function of the configuration.  `accessOk` is the verdict of
`access_ok` on the user-supplied argument. -/
def scull_ioctl (c : Cfg) (accessOk : Bool) (cmd : Nat) : Int :=
  if iocType cmd ≠ SCULL_IOC_MAGIC then -ENOTTY
  else if SCULL_IOC_MAXNR < iocNr cmd then -ENOTTY
  else if !accessOk then -EFAULT
  else if cmd = SCULL_IOCGETELEMSZ then (c.elemsz : Int)
  else -ENOTTY

/-- A small concrete configuration (2 slots of 8 payload bytes), used
for concrete evaluations of the operations. -/
def cfg2 : Cfg := { size := 2, elemsz := 8 }

/-- Concrete contents for a freshly allocated region (all zero). -/
def slots0 : Nat → Slot := fun _ => { len := 0, payload := fun _ => 0 }

/-- The freshly initialized queue state for `cfg2`. -/
def s0 : ScullState := initState cfg2 slots0

/-- A concrete user buffer: byte `i` holds `97 + i` (ASCII from `a`). -/
def bufA : Nat → Nat := fun i => 97 + i

/-- The state after one successful 4-byte write of `bufA` into the
fresh queue. -/
def sAfterW : ScullState :=
  ((scull_write cfg2 s0 s0 bufA 4 false false false).next).getD s0

/-- One serialized queue operation: a `write(2)` call with its user
data and requested length, or a `read(2)` call with its requested
length. -/
inductive Op where
  | wr (data : Nat → Nat) (count : Nat)
  | rd (count : Nat)

/-- Run one serialized operation (no interruption, no transfer
failure): the entry state and the acquire-time state coincide. -/
def runOp (c : Cfg) (s : ScullState) : Op → RWOut
  | .wr data count => scull_write c s s data count false false false
  | .rd count => scull_read c s s count false false false

/-- Run a serialized sequence of operations, collecting for each call
its return value and the bytes it delivered; `none` if some call
blocks. -/
def runTrace (c : Cfg) (s : ScullState) :
    List Op → Option (ScullState × List (Int × List Nat))
  | [] => some (s, [])
  | op :: ops =>
    match runOp c s op with
    | .blocked => none
    | .ret r out s1 =>
      match runTrace c s1 ops with
      | none => none
      | some (s2, outs) => some (s2, (r, out) :: outs)

/-- `countsOk c w r ops`: starting from `w` completed writes and `r`
completed reads, every read in `ops` finds a pending record and every
write finds a free slot — fewer than `c.size` records are pending at
each write, and at least one at each read. -/
def countsOk (c : Cfg) : Nat → Nat → List Op → Bool
  | _, _, [] => true
  | w, r, Op.wr _ _ :: ops => decide (w < r + c.size) && countsOk c (w + 1) r ops
  | w, r, Op.rd _ :: ops => decide (r < w) && countsOk c w (r + 1) ops

/-- The length a write call stores in the slot header: the requested
length clamped to `scull_fifo_elemsz`. -/
def storedLen (c : Cfg) (count : Nat) : Nat :=
  if count > c.elemsz then c.elemsz else count

/-- The payload bytes a write call stores: the first `storedLen` bytes
of the user buffer. -/
def storedBytes (c : Cfg) (data : Nat → Nat) (count : Nat) : List Nat :=
  (List.range (storedLen c count)).map data

/-- A write request: the user data and the requested length. -/
abbrev Wr := (Nat → Nat) × Nat

/-- Placeholder write request (used as `getD` default). -/
def wr0 : Wr := (fun _ => 0, 0)

/-- The write requests of a trace, in order. -/
def writesOf : List Op → List Wr
  | [] => []
  | Op.wr d n :: ops => (d, n) :: writesOf ops
  | Op.rd _ :: ops => writesOf ops

/-- The requested lengths of the reads of a trace, in order. -/
def readsOf : List Op → List Nat
  | [] => []
  | Op.wr _ _ :: ops => readsOf ops
  | Op.rd n :: ops => n :: readsOf ops

/-- Number of reads in a trace. -/
def numReads (ops : List Op) : Nat := (readsOf ops).length

/-- The outputs of the read calls of a trace, extracted from the
per-call output list produced by `runTrace`. -/
def readOuts : List Op → List (Int × List Nat) → List (List Nat)
  | Op.rd _ :: ops, o :: outs => o.2 :: readOuts ops outs
  | Op.wr _ _ :: ops, _ :: outs => readOuts ops outs
  | _, _ => []

/-- The per-call results a serialized trace is expected to produce,
computed at the level of write requests: `ws` are the writes completed
so far, `rdone` the reads completed so far.  A write returns its
clamped length; the `rdone`-th read returns `min req L` and the first
`min req L` bytes of the `rdone`-th stored record. -/
def expectedOuts (c : Cfg) : List Wr → Nat → List Op → List (Int × List Nat)
  | _, _, [] => []
  | ws, rdone, Op.wr d n :: ops =>
    ((storedLen c n : Int), []) :: expectedOuts c (ws ++ [(d, n)]) rdone ops
  | ws, rdone, Op.rd req :: ops =>
    (((min req (storedLen c (ws.getD rdone wr0).2) : Nat) : Int),
      (storedBytes c (ws.getD rdone wr0).1 (ws.getD rdone wr0).2).take req)
      :: expectedOuts c ws (rdone + 1) ops

/-- The state after a successful uninterrupted `scull_write` call on
state `s`: the writer permit is consumed, the slot under the tail
cursor receives the clamped record, the tail cursor advances one
stride modulo the region size, and the reader semaphore is signalled. -/
def writeNext (c : Cfg) (s : ScullState) (buf : Nat → Nat) (count : Nat) : ScullState :=
  { s with
    writerSem := s.writerSem - 1,
    slots := fun j =>
      if j = s.endOff / stride c then
        { len := (storedLen c count : Int),
          payload := fun i =>
            if i < storedLen c count then buf i
            else (s.slots (s.endOff / stride c)).payload i }
      else s.slots j,
    endOff := (s.endOff + stride c) % (c.size * stride c),
    readerSem := s.readerSem + 1 }

/-- The state after a successful uninterrupted `scull_read` call on
state `s`: the reader permit is consumed, the head cursor advances one
stride modulo the region size, and the writer semaphore is signalled. -/
def readNext (c : Cfg) (s : ScullState) : ScullState :=
  { s with
    readerSem := s.readerSem - 1,
    headOff := (s.headOff + stride c) % (c.size * stride c),
    writerSem := s.writerSem + 1 }

/-- The byte count a successful `scull_read` on state `s` returns: the
requested count clamped (by an unsigned comparison) to the length
header of the head slot. -/
def readCnt (c : Cfg) (s : ScullState) (count : Nat) : Nat :=
  if count > toSizeT (s.slots (s.headOff / stride c)).len
  then toSizeT (s.slots (s.headOff / stride c)).len else count

/-- The bytes a successful `scull_read` on state `s` copies to the
user buffer. -/
def readBytes (c : Cfg) (s : ScullState) (count : Nat) : List Nat :=
  (List.range (readCnt c s count)).map (s.slots (s.headOff / stride c)).payload

/-- Slot `m % c.size` of `s` holds the record of write request `w`:
its header is the clamped length and its payload starts with the
stored bytes. -/
def slotHolds (c : Cfg) (s : ScullState) (m : Nat) (w : Wr) : Prop :=
  (s.slots (m % c.size)).len = (storedLen c w.2 : Int) ∧
  ∀ i, i < storedLen c w.2 → (s.slots (m % c.size)).payload i = w.1 i

/-- The reachability invariant of serialized execution: after the
writes `ws` and `rdone` reads, the semaphore counters record the
pending count, the cursors sit at slot boundaries determined by the
operation counts, and each pending record sits in its slot. -/
def stateInv (c : Cfg) (ws : List Wr) (rdone : Nat) (s : ScullState) : Prop :=
  rdone ≤ ws.length ∧
  ws.length ≤ rdone + c.size ∧
  s.readerSem = ws.length - rdone ∧
  s.writerSem = c.size - (ws.length - rdone) ∧
  s.headOff = rdone % c.size * stride c ∧
  s.endOff = ws.length % c.size * stride c ∧
  ∀ m, rdone ≤ m → m < ws.length → slotHolds c s m (ws.getD m wr0)

/-! ## Theorems -/

/-- C1: the claim states `free_slots + filled_slots = capacity` after
every read and write return, including every error return.  The code
violates it: a read whose `down_interruptible(&reader)` is interrupted
runs `up(&writer)` although it acquired nothing, so on a fresh 2-slot
queue the call returns `-ERESTARTSYS` with `writerSem + readerSem = 3`. -/
theorem scull_read_interrupted_breaks_invariant :
    s0.writerSem + s0.readerSem = cfg2.size ∧
    (scull_read cfg2 s0 s0 4 true false false).retVal = some (-ERESTARTSYS) ∧
    (scull_read cfg2 s0 s0 4 true false false).next.map
      (fun s => s.writerSem + s.readerSem) = some 3 ∧
    cfg2.size = 2 := by decide

/-- C2: the claim states that a transfer fault rolls back the permit
the operation acquired, leaving that counter at its pre-call value.
The code instead keeps the acquired permit consumed and signals the
opposite semaphore: a faulting write on a fresh 2-slot queue returns
`-EFAULT` with `writerSem` dropped from 2 to 1 and `readerSem` raised
from 0 to 1 (tail cursor unmoved); a faulting read after one write
returns `-EFAULT` with `readerSem` dropped from 1 to 0 and `writerSem`
raised from 1 to 2 (head cursor unmoved). -/
theorem scull_fault_releases_wrong_semaphore :
    (scull_write cfg2 s0 s0 bufA 3 false false true).retVal = some (-EFAULT) ∧
    s0.writerSem = 2 ∧ s0.readerSem = 0 ∧
    (scull_write cfg2 s0 s0 bufA 3 false false true).next.map
      (fun s => (s.writerSem, s.readerSem, s.endOff)) = some (1, 1, 0) ∧
    sAfterW.writerSem = 1 ∧ sAfterW.readerSem = 1 ∧ sAfterW.headOff = 0 ∧
    (scull_read cfg2 sAfterW sAfterW 4 false false true).retVal = some (-EFAULT) ∧
    (scull_read cfg2 sAfterW sAfterW 4 false false true).next.map
      (fun s => (s.writerSem, s.readerSem, s.headOff)) = some (2, 0, 0) := by decide

/-- C3: the claim states that an interrupted blocking acquire leaves
both counters and both cursors at their pre-call values, releasing the
operation's own permit when the lock acquisition is the interrupted
step.  The code violates both halves: a read interrupted at
`down_interruptible(&reader)` on a fresh 2-slot queue returns with
`writerSem` raised from 2 to 3, and a write interrupted at
`mutex_lock_interruptible` returns with its own writer permit still
consumed (`writerSem` 2 → 1) and the reader semaphore signalled
instead (`readerSem` 0 → 1). -/
theorem scull_interrupted_acquire_corrupts_counters :
    s0.writerSem = 2 ∧ s0.readerSem = 0 ∧
    (scull_read cfg2 s0 s0 4 true false false).next.map
      (fun s => s.writerSem) = some 3 ∧
    (scull_write cfg2 s0 s0 bufA 3 false true false).retVal =
      some (-ERESTARTSYS) ∧
    (scull_write cfg2 s0 s0 bufA 3 false true false).next.map
      (fun s => (s.writerSem, s.readerSem)) = some (1, 1) := by decide

/-- C6: the claim states that the head slot's length and payload
address are snapshotted only after the filled permit and the mutex are
held.  The code snapshots them at function entry, before either
acquire: a read that entered on the empty state `s0` (stale length 0)
but reaches its acquires after a 4-byte record has been written
returns 0 bytes, whereas the same read with an entry snapshot taken at
acquire time returns the 4 record bytes. -/
theorem scull_read_snapshot_taken_before_acquire :
    (sAfterW.slots (sAfterW.headOff / stride cfg2)).len = 4 ∧
    (scull_read cfg2 s0 sAfterW 4 false false false).retVal = some 0 ∧
    (scull_read cfg2 s0 sAfterW 4 false false false).outBytes = some [] ∧
    (scull_read cfg2 sAfterW sAfterW 4 false false false).outBytes =
      some [97, 98, 99, 100] := by decide

/-- C7: construction with parameters `capacity` and `elem_size`
allocates a region of `capacity` stride-sized slots, sets the free
counter to `capacity` and the filled counter to 0, resets both cursors
to the origin, and on allocation failure returns `-ENOMEM` with no
queue state. -/
theorem scull_init_fifo_spec (c : Cfg) (initSlots : Nat → Slot) :
    fifoRegionBytes c = c.size * stride c ∧
    (∃ s, scull_init_fifo c true initSlots = .ok s ∧
      s.writerSem = c.size ∧ s.readerSem = 0 ∧ s.headOff = 0 ∧ s.endOff = 0) ∧
    scull_init_fifo c false initSlots = .error (-ENOMEM) := by
  refine ⟨?_, ⟨initState c initSlots, rfl, rfl, rfl, rfl, rfl⟩, rfl⟩
  unfold fifoRegionBytes stride
  ring

/-- C8: the `SCULL_IOCGETELEMSZ` control command returns
`scull_fifo_elemsz`.  The source of `scull_ioctl` reads only the
command word and `scull_fifo_elemsz` and never assigns to any queue
global, so it is embedded as a pure function: no queue state is
modified by any control call. -/
theorem scull_ioctl_getelemsz (c : Cfg) :
    scull_ioctl c true SCULL_IOCGETELEMSZ = (c.elemsz : Int) := by
  unfold scull_ioctl SCULL_IOCGETELEMSZ SCULL_IOC_MAGIC SCULL_IOC_MAXNR iocType iocNr
  norm_num

/-- C10: a control command whose type byte differs from
`SCULL_IOC_MAGIC` or whose command number exceeds `SCULL_IOC_MAXNR` is
rejected with `-ENOTTY`, and a command is accepted (nonnegative
return) only if it is `SCULL_IOCGETELEMSZ`; the embedding is a pure
function, so no queue state is touched. -/
theorem scull_ioctl_only_getelemsz (c : Cfg) (accessOk : Bool) (cmd : Nat) :
    (iocType cmd ≠ SCULL_IOC_MAGIC ∨ SCULL_IOC_MAXNR < iocNr cmd →
      scull_ioctl c accessOk cmd = -ENOTTY) ∧
    (0 ≤ scull_ioctl c accessOk cmd → cmd = SCULL_IOCGETELEMSZ) := by
  constructor
  · intro h
    unfold scull_ioctl
    by_cases h1 : iocType cmd ≠ SCULL_IOC_MAGIC
    · rw [if_pos h1]
    · rw [if_neg h1]
      have h2 : SCULL_IOC_MAXNR < iocNr cmd := by tauto
      rw [if_pos h2]
  · intro h
    unfold scull_ioctl at h
    by_cases h1 : iocType cmd ≠ SCULL_IOC_MAGIC
    · rw [if_pos h1] at h; norm_num [ENOTTY] at h
    · rw [if_neg h1] at h
      by_cases h2 : SCULL_IOC_MAXNR < iocNr cmd
      · rw [if_pos h2] at h; norm_num [ENOTTY] at h
      · rw [if_neg h2] at h
        by_cases h3 : (!accessOk) = true
        · rw [if_pos h3] at h; norm_num [EFAULT] at h
        · rw [if_neg h3] at h
          by_cases h4 : cmd = SCULL_IOCGETELEMSZ
          · exact h4
          · rw [if_neg h4] at h; norm_num [ENOTTY] at h

/-- Witness for C10 at concrete inputs: command 0 has type byte 0 and
is rejected, and the accepted command is `SCULL_IOCGETELEMSZ` itself. -/
theorem scull_ioctl_only_getelemsz_witness :
    scull_ioctl cfg2 true 0 = -ENOTTY ∧ SCULL_IOCGETELEMSZ = SCULL_IOCGETELEMSZ :=
  ⟨(scull_ioctl_only_getelemsz cfg2 true 0).1 (by decide),
   (scull_ioctl_only_getelemsz cfg2 true SCULL_IOCGETELEMSZ).2 (by decide)⟩

/-- `toSSizeT` is the identity below `2^63`. -/
theorem toSSizeT_small (n : Nat) (h : n < 2 ^ 63) : toSSizeT n = n := by
  unfold toSSizeT
  have hm : n % 2 ^ 64 = n := Nat.mod_eq_of_lt (by omega)
  rw [hm, if_pos h]

/-- `toSizeT` is the identity on nonnegative values below `2^64`. -/
theorem toSizeT_ofNat (n : Nat) (h : n < 2 ^ 64) : toSizeT (n : Int) = n := by
  unfold toSizeT
  rw [Int.emod_eq_of_lt (by positivity) (by exact_mod_cast h)]
  simp

/-- The slot stride is positive. -/
theorem stride_pos (c : Cfg) : 0 < stride c := by unfold stride; omega

/-- The stored length never exceeds `scull_fifo_elemsz`. -/
theorem storedLen_le_elemsz (c : Cfg) (n : Nat) : storedLen c n ≤ c.elemsz := by
  unfold storedLen; split <;> omega

/-- A stored record has exactly `storedLen` bytes. -/
theorem storedBytes_length (c : Cfg) (d : Nat → Nat) (n : Nat) :
    (storedBytes c d n).length = storedLen c n := by
  simp [storedBytes]

/-- Advancing a cursor that sits at a slot boundary by one stride,
modulo the region size, lands on the next slot boundary. -/
theorem advance_slot (n st r : Nat) :
    (r % n * st + st) % (n * st) = (r + 1) % n * st := by
  have h1 : r % n * st + st = (r % n + 1) * st := by ring
  rw [h1, Nat.mul_mod_mul_right, Nat.mod_add_mod]

/-- Two operation indices less than one ring circumference apart map
to distinct slots. -/
theorem mod_ne_window (n m w : Nat) (hmw : m < w) (hd : w - m < n) :
    ¬ m % n = w % n := by
  intro h
  have hdvd : n ∣ w - m := (Nat.modEq_iff_dvd' hmw.le).mp h
  have hpos : 0 < w - m := by omega
  have := Nat.le_of_dvd hpos hdvd
  omega

/-- A `scull_write` with no interference, interruption or fault, on a
state with a free slot, stores the clamped record and returns the
clamped length. -/
theorem scull_write_ok (c : Cfg) (s : ScullState) (buf : Nat → Nat) (count : Nat)
    (h : ¬ s.writerSem = 0) :
    scull_write c s s buf count false false false =
      RWOut.ret (toSSizeT (storedLen c count)) [] (writeNext c s buf count) := by
  simp only [scull_write]
  rw [if_neg h]
  rfl

/-- A `scull_read` with no interference, interruption or fault, on a
state with a pending record, returns the clamped byte count and the
head slot's bytes and advances the head cursor. -/
theorem scull_read_ok (c : Cfg) (s : ScullState) (count : Nat)
    (h : ¬ s.readerSem = 0) :
    scull_read c s s count false false false =
      RWOut.ret (toSSizeT (readCnt c s count)) (readBytes c s count) (readNext c s) := by
  simp only [scull_read]
  rw [if_neg h]
  rfl

/-- A serialized successful write preserves the reachability invariant
and appends its record to the pending region. -/
theorem write_step (c : Cfg) (hwf : CfgWF c) (ws : List Wr) (rdone : Nat)
    (s : ScullState) (dta : Nat → Nat) (n : Nat)
    (hinv : stateInv c ws rdone s) (hroom : ws.length < rdone + c.size) :
    scull_write c s s dta n false false false =
      RWOut.ret ((storedLen c n : Nat) : Int) [] (writeNext c s dta n) ∧
    stateInv c (ws ++ [(dta, n)]) rdone (writeNext c s dta n) := by
  obtain ⟨hc1, hc2⟩ := hwf
  obtain ⟨h1, h2, hrs, hws, hho, heo, hslots⟩ := hinv
  have hstp : 0 < stride c := stride_pos c
  have hne : ¬ s.writerSem = 0 := by rw [hws]; omega
  have hts : toSSizeT (storedLen c n) = ((storedLen c n : Nat) : Int) :=
    toSSizeT_small _ (by have := storedLen_le_elemsz c n; omega)
  have endSlot : s.endOff / stride c = ws.length % c.size := by
    rw [heo]; exact Nat.mul_div_cancel _ hstp
  refine ⟨by rw [scull_write_ok c s dta n hne, hts], ?_, ?_, ?_, ?_, ?_, ?_, ?_⟩
  · simp only [List.length_append, List.length_cons, List.length_nil]; omega
  · simp only [List.length_append, List.length_cons, List.length_nil]; omega
  · simp only [writeNext, List.length_append, List.length_cons, List.length_nil]
    omega
  · simp only [writeNext, List.length_append, List.length_cons, List.length_nil]
    omega
  · simp only [writeNext]
    exact hho
  · simp only [writeNext, List.length_append, List.length_cons, List.length_nil]
    rw [heo, advance_slot]
  · intro m hm1 hm2
    simp only [List.length_append, List.length_cons, List.length_nil] at hm2
    by_cases hm : m = ws.length
    · subst hm
      have hget : (ws ++ [(dta, n)]).getD ws.length wr0 = (dta, n) := by
        rw [List.getD_eq_getElem?_getD, List.getElem?_concat_length]; rfl
      rw [hget]
      have hsl2 : (writeNext c s dta n).slots (ws.length % c.size) =
          { len := (storedLen c n : Int),
            payload := fun i => if i < storedLen c n then dta i
              else (s.slots (ws.length % c.size)).payload i } := by
        simp [writeNext, endSlot]
      constructor
      · show ((writeNext c s dta n).slots (ws.length % c.size)).len = _
        rw [hsl2]
      · intro i hi
        show ((writeNext c s dta n).slots (ws.length % c.size)).payload i = dta i
        rw [hsl2]
        exact if_pos hi
    · have hmlt : m < ws.length := by omega
      have hget : (ws ++ [(dta, n)]).getD m wr0 = ws.getD m wr0 :=
        List.getD_append _ _ _ _ hmlt
      have hne2 : ¬ m % c.size = ws.length % c.size :=
        mod_ne_window c.size m ws.length hmlt (by omega)
      have hsl : (writeNext c s dta n).slots (m % c.size) = s.slots (m % c.size) := by
        simp only [writeNext, endSlot]
        rw [if_neg hne2]
      rw [hget]
      obtain ⟨ha, hb⟩ := hslots m hm1 hmlt
      exact ⟨by rw [hsl]; exact ha, fun i hi => by rw [hsl]; exact hb i hi⟩

/-- A serialized successful read preserves the reachability invariant,
returns the clamped prefix of the oldest pending record, and consumes
it. -/
theorem read_step (c : Cfg) (hwf : CfgWF c) (ws : List Wr) (rdone : Nat)
    (s : ScullState) (req : Nat)
    (hinv : stateInv c ws rdone s) (havail : rdone < ws.length) :
    scull_read c s s req false false false =
      RWOut.ret ((min req (storedLen c (ws.getD rdone wr0).2) : Nat) : Int)
        ((storedBytes c (ws.getD rdone wr0).1 (ws.getD rdone wr0).2).take req)
        (readNext c s) ∧
    stateInv c ws (rdone + 1) (readNext c s) := by
  obtain ⟨hc1, hc2⟩ := hwf
  obtain ⟨h1, h2, hrs, hws, hho, heo, hslots⟩ := hinv
  have hstp : 0 < stride c := stride_pos c
  have hne : ¬ s.readerSem = 0 := by rw [hrs]; omega
  have headSlot : s.headOff / stride c = rdone % c.size := by
    rw [hho]; exact Nat.mul_div_cancel _ hstp
  obtain ⟨hlen, hpay⟩ := hslots rdone le_rfl havail
  have hLlt : storedLen c (ws.getD rdone wr0).2 < 2 ^ 63 := by
    have := storedLen_le_elemsz c (ws.getD rdone wr0).2; omega
  have hcnt : readCnt c s req = min req (storedLen c (ws.getD rdone wr0).2) := by
    unfold readCnt
    rw [headSlot, hlen, toSizeT_ofNat _ (by omega)]
    rcases Nat.lt_or_ge (storedLen c (ws.getD rdone wr0).2) req with hc | hc
    · rw [if_pos (by omega)]; omega
    · rw [if_neg (by omega)]; omega
  have hbytes : readBytes c s req =
      (storedBytes c (ws.getD rdone wr0).1 (ws.getD rdone wr0).2).take req := by
    unfold readBytes storedBytes
    rw [hcnt, headSlot, ← List.map_take, List.take_range]
    apply List.map_congr_left
    intro a ha
    exact hpay a (lt_of_lt_of_le (List.mem_range.mp ha) (Nat.min_le_right _ _))
  constructor
  · rw [scull_read_ok c s req hne, hcnt, hbytes,
      toSSizeT_small _ (lt_of_le_of_lt (Nat.min_le_right _ _) hLlt)]
  · refine ⟨by omega, by omega, ?_, ?_, ?_, ?_, ?_⟩
    · simp only [readNext]; omega
    · simp only [readNext]; omega
    · simp only [readNext]
      rw [hho, advance_slot]
    · simp only [readNext]
      exact heo
    · intro m hm1 hm2
      exact hslots m (by omega) hm2

/-- The freshly constructed queue satisfies the reachability
invariant with no writes and no reads done. -/
theorem stateInv_init (c : Cfg) (initSlots : Nat → Slot) :
    stateInv c [] 0 (initState c initSlots) := by
  refine ⟨le_rfl, by simp, rfl, by simp [initState], by simp [initState],
    by simp [initState], ?_⟩
  intro m hm1 hm2
  simp at hm2

/-- Serialized execution from a reachable state computes the expected
outputs and preserves the reachability invariant, provided every read
finds a pending record and every write finds a free slot. -/
theorem runTrace_spec (c : Cfg) (hwf : CfgWF c) :
    ∀ (ops : List Op) (ws : List Wr) (rdone : Nat) (s : ScullState),
      stateInv c ws rdone s →
      countsOk c ws.length rdone ops = true →
      ∃ s2, runTrace c s ops = some (s2, expectedOuts c ws rdone ops) ∧
        stateInv c (ws ++ writesOf ops) (rdone + numReads ops) s2 := by
  intro ops
  induction ops with
  | nil =>
    intro ws rdone s hinv _
    exact ⟨s, rfl, by simpa [writesOf, numReads, readsOf] using hinv⟩
  | cons op ops ih =>
    intro ws rdone s hinv hok
    cases op with
    | wr dta n =>
      simp only [countsOk, Bool.and_eq_true, decide_eq_true_eq] at hok
      obtain ⟨hroom, hok2⟩ := hok
      obtain ⟨heq, hinv2⟩ := write_step c hwf ws rdone s dta n hinv hroom
      obtain ⟨s2, hrun, hinv3⟩ := ih (ws ++ [(dta, n)]) rdone (writeNext c s dta n) hinv2
        (by simpa using hok2)
      refine ⟨s2, ?_, ?_⟩
      · simp only [runTrace, runOp, heq, hrun, expectedOuts]
      · simpa [writesOf, numReads, readsOf, List.append_assoc] using hinv3
    | rd req =>
      simp only [countsOk, Bool.and_eq_true, decide_eq_true_eq] at hok
      obtain ⟨havail, hok2⟩ := hok
      obtain ⟨heq, hinv2⟩ := read_step c hwf ws rdone s req hinv havail
      obtain ⟨s2, hrun, hinv3⟩ := ih ws (rdone + 1) (readNext c s) hinv2 hok2
      refine ⟨s2, ?_, ?_⟩
      · simp only [runTrace, runOp, heq, hrun, expectedOuts]
      · rw [show rdone + numReads (Op.rd req :: ops) = rdone + 1 + numReads ops from by
          simp [numReads, readsOf]; omega]
        exact hinv3

/-- The `j`-th read output of the expected results is the clamped
prefix of the `rdone + j`-th write request of the whole trace. -/
theorem readOuts_getD (c : Cfg) :
    ∀ (ops : List Op) (ws : List Wr) (rdone : Nat),
      countsOk c ws.length rdone ops = true →
      ∀ j, j < numReads ops →
        (readOuts ops (expectedOuts c ws rdone ops)).getD j [] =
          (storedBytes c ((ws ++ writesOf ops).getD (rdone + j) wr0).1
            ((ws ++ writesOf ops).getD (rdone + j) wr0).2).take ((readsOf ops).getD j 0) := by
  intro ops
  induction ops with
  | nil => intro ws rdone _ j hj; simp [numReads, readsOf] at hj
  | cons op ops ih =>
    intro ws rdone hok j hj
    cases op with
    | wr dta n =>
      simp only [countsOk, Bool.and_eq_true, decide_eq_true_eq] at hok
      have h := ih (ws ++ [(dta, n)]) rdone (by simpa using hok.2) j
        (by simpa [numReads, readsOf] using hj)
      rw [List.append_assoc] at h
      simp only [readOuts, expectedOuts, writesOf, readsOf]
      simpa using h
    | rd req =>
      simp only [countsOk, Bool.and_eq_true, decide_eq_true_eq] at hok
      cases j with
      | zero =>
        simp only [readOuts, expectedOuts, readsOf, writesOf, List.getD_cons_zero,
          Nat.add_zero]
        rw [List.getD_append _ _ _ _ hok.1]
      | succ j =>
        have h := ih ws (rdone + 1) hok.2 j (by simpa [numReads, readsOf] using hj)
        simp only [readOuts, expectedOuts, readsOf, writesOf, List.getD_cons_succ]
        rw [show rdone + (j + 1) = rdone + 1 + j from by omega]
        exact h

/-- C5: a write of `elem_size + d` bytes (`d > 0`) is not rejected: it
clamps to `elem_size`, succeeds returning `elem_size`, and a
subsequent read with a buffer of at least `elem_size` bytes returns
exactly the first `elem_size` bytes of the source. -/
theorem scull_truncation (c : Cfg) (s : ScullState) (buf : Nat → Nat)
    (d req : Nat) (hwf : CfgWF c) (hd : 0 < d)
    (hempty : s.headOff = s.endOff) (hfree : 0 < s.writerSem)
    (hreq : c.elemsz ≤ req) :
    ∃ s1 s2,
      scull_write c s s buf (c.elemsz + d) false false false =
        RWOut.ret (c.elemsz : Int) [] s1 ∧
      scull_read c s1 s1 req false false false =
        RWOut.ret (c.elemsz : Int) ((List.range c.elemsz).map buf) s2 := by
  obtain ⟨hsz, hlt⟩ := hwf
  have h0 : ¬ s.writerSem = 0 := by omega
  have hsl : storedLen c (c.elemsz + d) = c.elemsz := by
    unfold storedLen; rw [if_pos (by omega)]
  have hr : ¬ (writeNext c s buf (c.elemsz + d)).readerSem = 0 := by
    simp [writeNext]
  have hslot : (writeNext c s buf (c.elemsz + d)).slots
      ((writeNext c s buf (c.elemsz + d)).headOff / stride c) =
      { len := (storedLen c (c.elemsz + d) : Int),
        payload := fun i => if i < storedLen c (c.elemsz + d) then buf i
          else (s.slots (s.endOff / stride c)).payload i } := by
    simp only [writeNext]
    simp [hempty]
  have hcnt : readCnt c (writeNext c s buf (c.elemsz + d)) req = c.elemsz := by
    unfold readCnt
    rw [hslot]
    simp only [hsl]
    rw [toSizeT_ofNat _ (by omega)]
    by_cases hgt : req > c.elemsz
    · rw [if_pos hgt]
    · rw [if_neg hgt]; omega
  have hbytes : readBytes c (writeNext c s buf (c.elemsz + d)) req =
      (List.range c.elemsz).map buf := by
    unfold readBytes
    rw [hslot, hcnt]
    simp only [hsl]
    apply List.map_congr_left
    intro a ha
    rw [if_pos (List.mem_range.mp ha)]
  refine ⟨writeNext c s buf (c.elemsz + d), readNext c (writeNext c s buf (c.elemsz + d)),
    ?_, ?_⟩
  · rw [scull_write_ok c s buf _ h0, hsl, toSSizeT_small _ (by omega)]
  · rw [scull_read_ok c (writeNext c s buf (c.elemsz + d)) req hr, hcnt, hbytes,
      toSSizeT_small _ (by omega)]

/-- Witness for C5 at concrete inputs: on the fresh 2-slot queue with
`elem_size = 8`, writing 9 bytes of `bufA` stores and returns 8, and
the following read of up to 9 bytes returns the first 8 bytes of
`bufA`. -/
theorem scull_truncation_witness :
    CfgWF cfg2 ∧ 0 < 1 ∧ s0.headOff = s0.endOff ∧ 0 < s0.writerSem ∧ cfg2.elemsz ≤ 9 ∧
    (∃ s1 s2,
      scull_write cfg2 s0 s0 bufA (cfg2.elemsz + 1) false false false =
        RWOut.ret (cfg2.elemsz : Int) [] s1 ∧
      scull_read cfg2 s1 s1 9 false false false =
        RWOut.ret (cfg2.elemsz : Int) ((List.range cfg2.elemsz).map bufA) s2) :=
  ⟨by decide, by decide, by decide, by decide, by decide,
   scull_truncation cfg2 s0 bufA 1 9 (by decide) (by decide) (by decide) (by decide)
     (by decide)⟩

/-- C4: for a serialized trace of writes and reads starting from the
fresh queue, in which at most `capacity` records are ever pending, at
least one record is pending at each read, and each read requests at
least the stored length of its record, the `j`-th read returns exactly
the bytes stored by the `j`-th write. -/
theorem scull_fifo_in_order (c : Cfg) (ops : List Op) (initSlots : Nat → Slot)
    (hwf : CfgWF c)
    (hcounts : countsOk c 0 0 ops = true)
    (hreq : ∀ j, j < numReads ops →
      storedLen c ((writesOf ops).getD j wr0).2 ≤ (readsOf ops).getD j 0) :
    ∃ s2 outs, runTrace c (initState c initSlots) ops = some (s2, outs) ∧
      ∀ j, j < numReads ops →
        (readOuts ops outs).getD j [] =
          storedBytes c ((writesOf ops).getD j wr0).1 ((writesOf ops).getD j wr0).2 := by
  obtain ⟨s2, hrun, _⟩ := runTrace_spec c hwf ops [] 0 (initState c initSlots)
    (stateInv_init c initSlots) hcounts
  refine ⟨s2, expectedOuts c [] 0 ops, hrun, ?_⟩
  intro j hj
  have h := readOuts_getD c ops [] 0 hcounts j hj
  simp only [List.nil_append, Nat.zero_add] at h
  rw [h]
  apply List.take_of_length_le
  rw [storedBytes_length]
  exact hreq j hj

/-- Witness for C4 at a concrete trace on the fresh 2-slot queue:
write 2 bytes, read 2, write 4 bytes, read 9; each read returns the
bytes of its corresponding write. -/
theorem scull_fifo_in_order_witness :
    CfgWF cfg2 ∧
    countsOk cfg2 0 0 [Op.wr bufA 2, Op.rd 2, Op.wr bufA 4, Op.rd 9] = true ∧
    (∀ j, j < numReads [Op.wr bufA 2, Op.rd 2, Op.wr bufA 4, Op.rd 9] →
      storedLen cfg2 ((writesOf [Op.wr bufA 2, Op.rd 2, Op.wr bufA 4, Op.rd 9]).getD j wr0).2 ≤
        (readsOf [Op.wr bufA 2, Op.rd 2, Op.wr bufA 4, Op.rd 9]).getD j 0) ∧
    (∃ s2 outs,
      runTrace cfg2 (initState cfg2 slots0) [Op.wr bufA 2, Op.rd 2, Op.wr bufA 4, Op.rd 9] =
        some (s2, outs) ∧
      ∀ j, j < numReads [Op.wr bufA 2, Op.rd 2, Op.wr bufA 4, Op.rd 9] →
        (readOuts [Op.wr bufA 2, Op.rd 2, Op.wr bufA 4, Op.rd 9] outs).getD j [] =
          storedBytes cfg2 ((writesOf [Op.wr bufA 2, Op.rd 2, Op.wr bufA 4, Op.rd 9]).getD j wr0).1
            ((writesOf [Op.wr bufA 2, Op.rd 2, Op.wr bufA 4, Op.rd 9]).getD j wr0).2) :=
  ⟨by decide, by decide, by decide,
   scull_fifo_in_order cfg2 [Op.wr bufA 2, Op.rd 2, Op.wr bufA 4, Op.rd 9] slots0
     (by decide) (by decide) (by decide)⟩

/-- C9: in any serialized trace from the fresh queue, every read
returns exactly the first `min(requested_len, L)` bytes of the record
stored by its own corresponding write — so a read with
`requested_len < L` returns `requested_len` bytes and the remaining
`L - requested_len` bytes of that record appear in no later read's
output — and the final head cursor has advanced one full slot stride
per read (modulo the ring size). -/
theorem scull_short_read_discards (c : Cfg) (ops : List Op) (initSlots : Nat → Slot)
    (hwf : CfgWF c) (hcounts : countsOk c 0 0 ops = true) :
    ∃ s2 outs, runTrace c (initState c initSlots) ops = some (s2, outs) ∧
      (∀ j, j < numReads ops →
        (readOuts ops outs).getD j [] =
          (storedBytes c ((writesOf ops).getD j wr0).1
            ((writesOf ops).getD j wr0).2).take ((readsOf ops).getD j 0)) ∧
      s2.headOff = numReads ops % c.size * stride c := by
  obtain ⟨s2, hrun, hinv⟩ := runTrace_spec c hwf ops [] 0 (initState c initSlots)
    (stateInv_init c initSlots) hcounts
  refine ⟨s2, expectedOuts c [] 0 ops, hrun, ?_, ?_⟩
  · intro j hj
    have h := readOuts_getD c ops [] 0 hcounts j hj
    simpa using h
  · have h := hinv.2.2.2.2.1
    rwa [Nat.zero_add] at h

/-- Witness for C9 at a concrete trace on the fresh 2-slot queue:
write 4 bytes, read only 2 of them, write 3 bytes, read up to 8; the
short read returns 2 bytes, the next read returns the 3 bytes of the
second write (never the discarded remainder), and head has advanced
two full slots. -/
theorem scull_short_read_discards_witness :
    CfgWF cfg2 ∧
    countsOk cfg2 0 0 [Op.wr bufA 4, Op.rd 2, Op.wr bufA 3, Op.rd 8] = true ∧
    (∃ s2 outs,
      runTrace cfg2 (initState cfg2 slots0) [Op.wr bufA 4, Op.rd 2, Op.wr bufA 3, Op.rd 8] =
        some (s2, outs) ∧
      (∀ j, j < numReads [Op.wr bufA 4, Op.rd 2, Op.wr bufA 3, Op.rd 8] →
        (readOuts [Op.wr bufA 4, Op.rd 2, Op.wr bufA 3, Op.rd 8] outs).getD j [] =
          (storedBytes cfg2 ((writesOf [Op.wr bufA 4, Op.rd 2, Op.wr bufA 3, Op.rd 8]).getD j wr0).1
            ((writesOf [Op.wr bufA 4, Op.rd 2, Op.wr bufA 3, Op.rd 8]).getD j wr0).2).take
              ((readsOf [Op.wr bufA 4, Op.rd 2, Op.wr bufA 3, Op.rd 8]).getD j 0)) ∧
      s2.headOff = numReads [Op.wr bufA 4, Op.rd 2, Op.wr bufA 3, Op.rd 8] % cfg2.size * stride cfg2) :=
  ⟨by decide, by decide,
   scull_short_read_discards cfg2 [Op.wr bufA 4, Op.rd 2, Op.wr bufA 3, Op.rd 8] slots0
     (by decide) (by decide)⟩
